import Mathlib

/-!
Shallow embedding of the core tessellation routine of par_streamlines.h
(the function par_streamlines_draw_lines and the data it operates on).

Conventions of the embedding:
* C float / double arithmetic is idealised as real arithmetic (ℝ);
  sqrtf / acos / sin / M_PI become Real.sqrt / Real.arccos / Real.sin /
  Real.pi.  Claims that hinge on exact rounding of IEEE floats are treated
  separately in the results file.
* C unsigned integers (uint16_t / uint32_t) become ℕ.  num_spines is a
  uint16 and each spine length is a uint16, so all counters stay far below
  2 to the 64 and the uint32 accumulators of the source never wrap for any
  input the allocator could serve; overflow is therefore not modelled.
* The reusable output arrays of the context become lists that are rebuilt
  by each call (the source clears and refills them, lines 217 to 225).
* The assert calls of the source (line 208 and lines 507 to 511) abort the
  process; the embedding returns Option: none models the assertion-level
  contract violation of line 208 and of the end assert on the source
  pointer (line 507), which fire exactly when some spine length is at most
  one or the spine lengths do not sum to num_vertices.
* Pointer walks (src_position, dst_positions, ...) become index-based
  access; reading past the caller buffer (undefined behaviour in C) is
  modelled by List.getD returning a junk default.
-/

/-- Mirror of par_streamlines_position (par_streamlines.h lines 37 to 40):
a 2D single-precision point, idealised over ℝ. -/
structure par_streamlines_position where
  x : ℝ
  y : ℝ

/-- Mirror of par_streamlines_u_mode (lines 42 to 47). -/
inductive par_streamlines_u_mode where
  | PAR_U_MODE_NORMALIZED_DISTANCE
  | PAR_U_MODE_DISTANCE
  | PAR_U_MODE_SEGMENT_INDEX
  | PAR_U_MODE_SEGMENT_FRACTION
  deriving DecidableEq

export par_streamlines_u_mode (PAR_U_MODE_NORMALIZED_DISTANCE PAR_U_MODE_DISTANCE
  PAR_U_MODE_SEGMENT_INDEX PAR_U_MODE_SEGMENT_FRACTION)

/-- Mirror of par_streamlines_annotation (lines 49 to 54). -/
structure par_streamlines_annotation where
  u_along_curve : ℝ
  v_across_curve : ℝ
  spine_to_edge_x : ℝ
  spine_to_edge_y : ℝ

/-- Mirror of par_streamlines_mesh (lines 56 to 63); the four buffer
pointers become lists. -/
structure par_streamlines_mesh where
  num_vertices : ℕ
  num_triangles : ℕ
  vertex_positions : List par_streamlines_position
  vertex_annotations : List par_streamlines_annotation
  vertex_lengths : List ℝ
  triangle_indices : List ℕ

/-- Mirror of par_streamlines_config (lines 65 to 73).  The fields other
than thickness, wireframe and u_mode are carried but never read by
par_streamlines_draw_lines, exactly as in the source. -/
structure par_streamlines_config where
  thickness : ℝ
  curves_level_of_detail : ℕ := 0
  streamlines_seed_spacing : ℝ := 0
  streamlines_seed_viewport : ℝ × ℝ × ℝ × ℝ := (0, 0, 0, 0)
  streamlines_num_frames : ℕ := 0
  wireframe : Bool := false
  u_mode : par_streamlines_u_mode := PAR_U_MODE_NORMALIZED_DISTANCE

/-- Mirror of par_streamlines_spine_list (lines 75 to 81).  The uint16
field num_spines is implicit: spine_lengths models exactly the num_spines
entries the source loop reads. -/
structure par_streamlines_spine_list where
  num_vertices : ℕ
  vertices : List par_streamlines_position
  spine_lengths : List ℕ
  closed : Bool

/-- Read of src_position[i]: out-of-range reads (undefined behaviour in
the C source) yield a junk default point. -/
def getPos (pts : List par_streamlines_position) (i : ℕ) : par_streamlines_position :=
  pts.getD i ⟨0, 0⟩

/-- Length of the segment from p to q, as computed at lines 237 to 239
(dx, dy, then sqrtf(dx * dx + dy * dy)). -/
noncomputable def segment_length (p q : par_streamlines_position) : ℝ :=
  Real.sqrt ((q.x - p.x) * (q.x - p.x) + (q.y - p.y) * (q.y - p.y))

/-- Unit normal of the segment from p to q, as computed at lines 240 to
241: nx = -dy / segment_length, ny = dx / segment_length. -/
noncomputable def segment_normal (p q : par_streamlines_position) : par_streamlines_position :=
  ⟨-(q.y - p.y) / segment_length p q, (q.x - p.x) / segment_length p q⟩

/-- Miter-join offset for a joint with previous normal pn and current
normal nn, translated from lines 256 to 265 (and the two identical blocks
at lines 305 to 314 and 370 to 379):
phi = acos(pn . nn) / 2, theta = pi / 2 - phi,
extent = 0.5 * thickness / sin(theta), then the normalised sum of the two
normals scaled by extent. -/
noncomputable def miter_offset (pn nn : par_streamlines_position) (thickness : ℝ) :
    par_streamlines_position :=
  let phi := Real.arccos (pn.x * nn.x + pn.y * nn.y) / 2
  let theta := Real.pi / 2 - phi
  let extent := 0.5 * thickness / Real.sin theta
  let sx := pn.x + nn.x
  let sy := pn.y + nn.y
  let invlen := 1 / Real.sqrt (sx * sx + sy * sy)
  ⟨sx * (invlen * extent), sy * (invlen * extent)⟩

/-- Signed offset e = (ex, ey) from spine vertex i to its even boundary
vertex, for one spine of declared length n.  This packages the loop-carried
normal state of the source into an indexed form: when the source processes
vertex i, pnx / pny hold the normal of the segment entering i and nx / ny
the normal of the segment leaving i.
* i = 0, open: ex = nx * thickness / 2 (lines 246 to 247, butt cap);
* i = 0, closed: miter of the wrap-around segment normal and the first
  segment normal (lines 249 to 266);
* 0 < i < n - 1: miter of the two adjacent segment normals
  (lines 299 to 314);
* i = n - 1, open: ex = pnx * thickness / 2 (lines 360 to 361, butt cap);
* i = n - 1, closed: miter of the last segment normal and the wrap-around
  segment normal (lines 363 to 380). -/
noncomputable def spine_offset (pts : List par_streamlines_position) (n : ℕ) (closed : Bool)
    (thickness : ℝ) (i : ℕ) : par_streamlines_position :=
  if i = 0 then
    if closed then
      miter_offset (segment_normal (getPos pts (n - 1)) (getPos pts 0))
        (segment_normal (getPos pts 0) (getPos pts 1)) thickness
    else
      ⟨(segment_normal (getPos pts 0) (getPos pts 1)).x * thickness / 2,
       (segment_normal (getPos pts 0) (getPos pts 1)).y * thickness / 2⟩
  else if i < n - 1 then
    miter_offset (segment_normal (getPos pts (i - 1)) (getPos pts i))
      (segment_normal (getPos pts i) (getPos pts (i + 1))) thickness
  else
    if closed then
      miter_offset (segment_normal (getPos pts (n - 2)) (getPos pts (n - 1)))
        (segment_normal (getPos pts (n - 1)) (getPos pts 0)) thickness
    else
      ⟨(segment_normal (getPos pts (n - 2)) (getPos pts (n - 1))).x * thickness / 2,
       (segment_normal (getPos pts (n - 2)) (getPos pts (n - 1))).y * thickness / 2⟩

/-- Arc length accumulated when pair i is written: the value of
distance_along_spine at that moment.  It starts at the first segment
length (line 294) and each loop iteration adds the segment length it just
measured (line 335), so pair i carries the summed length of segments
0 .. i - 1. -/
noncomputable def cum_distance (pts : List par_streamlines_position) (i : ℕ) : ℝ :=
  ∑ k ∈ Finset.range i, segment_length (getPos pts k) (getPos pts (k + 1))

/-- Final value of distance_along_spine for one spine.  For an open spine
this is the sum of the n - 1 segment lengths.  For a closed spine, line
440 executes distance_along_spine += segment_length inside the seam block
(lines 424 to 463); no local segment_length is in scope there, so the C
name resolves to the outer variable of line 239, which still holds the
length of the FIRST segment of the spine (the closing segment length
computed at line 366 is a local of the block at lines 363 to 380 and is
already out of scope).  The embedding reproduces that resolution
faithfully. -/
noncomputable def total_distance (pts : List par_streamlines_position) (n : ℕ)
    (closed : Bool) : ℝ :=
  cum_distance pts (n - 1) +
    if closed then segment_length (getPos pts 0) (getPos pts 1) else 0

/-- Number of boundary-vertex pairs emitted for one spine: nverts at line
467, spine_length plus one extra seam pair when closed. -/
def nverts (n : ℕ) (closed : Bool) : ℕ :=
  n + if closed then 1 else 0

/-- The two boundary vertices written for spine vertex i
(lines 268 to 271, 316 to 319, 382 to 385): spine vertex plus and minus
the signed offset. -/
noncomputable def vertex_pair (pts : List par_streamlines_position) (n : ℕ) (closed : Bool)
    (thickness : ℝ) (i : ℕ) : List par_streamlines_position :=
  [⟨(getPos pts i).x + (spine_offset pts n closed thickness i).x,
    (getPos pts i).y + (spine_offset pts n closed thickness i).y⟩,
   ⟨(getPos pts i).x - (spine_offset pts n closed thickness i).x,
    (getPos pts i).y - (spine_offset pts n closed thickness i).y⟩]

/-- All boundary vertices of one spine, in emission order.  For a closed
spine the seam block (lines 427 to 429) copies first_dst_positions, the
pair saved at lines 276 to 279, so the trailing pair is the pair of vertex
0 again. -/
noncomputable def spine_positions (pts : List par_streamlines_position) (n : ℕ) (closed : Bool)
    (thickness : ℝ) : List par_streamlines_position :=
  (List.range n).flatMap (vertex_pair pts n closed thickness) ++
    if closed then vertex_pair pts n closed thickness 0 else []

/-- The two annotation records written together with pair i (lines 284 to
292, 326 to 334, 392 to 399, 431 to 439): provisional u is the accumulated
distance, v is +1 then -1, spine_to_edge is plus then minus the offset.
The seam pair (i = n) reuses the distance and the offset of pair n - 1:
at lines 431 to 438 distance_along_spine has not yet been incremented and
ex / ey still hold the offset of the last real vertex.  The clamp
min i (n - 1) expresses exactly that reuse. -/
noncomputable def annotation_pair (pts : List par_streamlines_position) (n : ℕ) (closed : Bool)
    (thickness : ℝ) (i : ℕ) : List par_streamlines_annotation :=
  [⟨cum_distance pts (min i (n - 1)), 1,
    (spine_offset pts n closed thickness (min i (n - 1))).x,
    (spine_offset pts n closed thickness (min i (n - 1))).y⟩,
   ⟨cum_distance pts (min i (n - 1)), -1,
    -(spine_offset pts n closed thickness (min i (n - 1))).x,
    -(spine_offset pts n closed thickness (min i (n - 1))).y⟩]

/-- All annotation records of one spine before the U fix-up pass. -/
noncomputable def spine_annotations_raw (pts : List par_streamlines_position) (n : ℕ)
    (closed : Bool) (thickness : ℝ) : List par_streamlines_annotation :=
  (List.range (nverts n closed)).flatMap (annotation_pair pts n closed thickness)

/-- One step of the U fix-up (lines 477 to 504): how the provisional u of
pair i is rewritten, given invlength = 1 / distance_along_spine and
invcount = 1 / spine_length (lines 475 to 476). -/
noncomputable def fixup_u (mode : par_streamlines_u_mode) (invlength invcount : ℝ) (i : ℕ)
    (u : ℝ) : ℝ :=
  match mode with
  | PAR_U_MODE_DISTANCE => u
  | PAR_U_MODE_NORMALIZED_DISTANCE => u * invlength
  | PAR_U_MODE_SEGMENT_INDEX => (i : ℝ)
  | PAR_U_MODE_SEGMENT_FRACTION => invcount * (i : ℝ)

/-- The U fix-up pass over the annotation records of one spine, two
records (one pair) at a time, mirroring the loops at lines 480 to 503;
the counter i numbers the pairs. -/
noncomputable def fixup_pass (mode : par_streamlines_u_mode) (invlength invcount : ℝ) :
    ℕ → List par_streamlines_annotation → List par_streamlines_annotation
  | _, [] => []
  | i, a :: b :: rest =>
      { a with u_along_curve := fixup_u mode invlength invcount i a.u_along_curve } ::
      { b with u_along_curve := fixup_u mode invlength invcount i b.u_along_curve } ::
      fixup_pass mode invlength invcount (i + 1) rest
  | i, [a] =>
      [{ a with u_along_curve := fixup_u mode invlength invcount i a.u_along_curve }]

/-- All annotation records of one spine after the U fix-up pass. -/
noncomputable def spine_annotations (mode : par_streamlines_u_mode)
    (pts : List par_streamlines_position) (n : ℕ) (closed : Bool) (thickness : ℝ) :
    List par_streamlines_annotation :=
  fixup_pass mode (1 / total_distance pts n closed) (1 / (n : ℝ)) 0
    (spine_annotations_raw pts n closed thickness)

/-- The vertex_lengths entries of one spine (lines 467 to 472): the final
distance_along_spine, written twice per pair for all nverts pairs. -/
noncomputable def spine_vertex_lengths (pts : List par_streamlines_position) (n : ℕ)
    (closed : Bool) : List ℝ :=
  List.replicate (2 * nverts n closed) (total_distance pts n closed)

/-- Indices emitted for the two triangles of segment si of a spine with
index base, lines 337 to 357 (and the identical blocks at lines 402 to
422 and 442 to 462).  Wireframe writes each triangle as a 4-tuple whose
last entry repeats the first. -/
def segment_indices (wireframe : Bool) (base si : ℕ) : List ℕ :=
  if wireframe then
    [base + (si - 1) * 2, base + (si - 1) * 2 + 1, base + si * 2, base + (si - 1) * 2,
     base + si * 2, base + (si - 1) * 2 + 1, base + si * 2 + 1, base + si * 2]
  else
    [base + (si - 1) * 2, base + (si - 1) * 2 + 1, base + si * 2,
     base + si * 2, base + (si - 1) * 2 + 1, base + si * 2 + 1]

/-- All indices of one spine: the source emits segment blocks for
segment_index = 1 .. spine_length - 1 (interior loop plus the block at
lines 402 to 422), and one more block for the seam when closed (lines 442
to 462). -/
def spine_indices (wireframe closed : Bool) (base n : ℕ) : List ℕ :=
  (List.range (n - 1 + if closed then 1 else 0)).flatMap
    (fun k => segment_indices wireframe base (k + 1))

/-- Extra vertices per spine when closed (the wrap-around duplicate pair),
from lines 211 to 214. -/
def spine_extra (closed : Bool) : ℕ :=
  if closed then 2 else 0

/-- The sizing pass for vertices (lines 207 to 215):
num_vertices accumulates 2 * spine_length, plus 2 when closed. -/
def mesh_num_vertices (lengths : List ℕ) (closed : Bool) : ℕ :=
  (lengths.map (fun len => 2 * len + spine_extra closed)).sum

/-- The sizing pass for triangles (lines 207 to 215):
num_triangles accumulates 2 * (spine_length - 1), plus 2 when closed. -/
def mesh_num_triangles (lengths : List ℕ) (closed : Bool) : ℕ :=
  (lengths.map (fun len => 2 * (len - 1) + spine_extra closed)).sum

/-- Indices per triangle (line 202): 4 in wireframe mode, else 3. -/
def ind_per_tri (wireframe : Bool) : ℕ :=
  if wireframe then 4 else 3

/-- Index stream of the whole mesh: spines are visited in order, and
base_index advances by spine_length * 2 + (closed ? 2 : 0) per spine
(line 465). -/
def all_triangle_indices (wireframe closed : Bool) : ℕ → List ℕ → List ℕ
  | _, [] => []
  | base, len :: rest =>
      spine_indices wireframe closed base len ++
        all_triangle_indices wireframe closed (base + len * 2 + spine_extra closed) rest

/-- Position stream of the whole mesh: the source pointer advances by
spine_length per spine (once at line 281, spine_length - 2 times at line
320, once at line 386), so each spine reads its own run of the flat
vertex buffer. -/
noncomputable def all_positions (closed : Bool) (thickness : ℝ) :
    List ℕ → List par_streamlines_position → List par_streamlines_position
  | [], _ => []
  | len :: rest, vs =>
      spine_positions (vs.take len) len closed thickness ++
        all_positions closed thickness rest (vs.drop len)

/-- Annotation stream of the whole mesh. -/
noncomputable def all_annotations (mode : par_streamlines_u_mode) (thickness : ℝ)
    (closed : Bool) : List ℕ → List par_streamlines_position →
    List par_streamlines_annotation
  | [], _ => []
  | len :: rest, vs =>
      spine_annotations mode (vs.take len) len closed thickness ++
        all_annotations mode thickness closed rest (vs.drop len)

/-- Vertex-length stream of the whole mesh. -/
noncomputable def all_vertex_lengths (closed : Bool) :
    List ℕ → List par_streamlines_position → List ℝ
  | [], _ => []
  | len :: rest, vs =>
      spine_vertex_lengths (vs.take len) len closed ++
        all_vertex_lengths closed rest (vs.drop len)

/-- Embedding of par_streamlines_draw_lines (lines 192 to 514).  The
context contributes only its config (the result mesh is rebuilt from
scratch: lines 204 to 225 clear and resize every buffer), so the config
stands in for the context.  none models the assertion failures: line 208
fires when some spine length is at most 1, and the end assert at line 507
fires when the spine lengths do not sum to num_vertices. -/
noncomputable def par_streamlines_draw_lines (config : par_streamlines_config)
    (spines : par_streamlines_spine_list) : Option par_streamlines_mesh :=
  if (∀ len ∈ spines.spine_lengths, 1 < len) ∧
      spines.spine_lengths.sum = spines.num_vertices then
    some
      { num_vertices := mesh_num_vertices spines.spine_lengths spines.closed,
        num_triangles := mesh_num_triangles spines.spine_lengths spines.closed,
        vertex_positions :=
          all_positions spines.closed config.thickness spines.spine_lengths spines.vertices,
        vertex_annotations :=
          all_annotations config.u_mode config.thickness spines.closed
            spines.spine_lengths spines.vertices,
        vertex_lengths :=
          all_vertex_lengths spines.closed spines.spine_lengths spines.vertices,
        triangle_indices :=
          all_triangle_indices config.wireframe spines.closed 0 spines.spine_lengths }
  else none

/-- Default annotation record used by getD. -/
def annotation_default : par_streamlines_annotation :=
  ⟨0, 0, 0, 0⟩

/-- Closure property of a 4-tuple index stream: the 4th entry of every
4-tuple equals the first entry of that tuple. -/
def tuple4_closed (l : List ℕ) : Prop :=
  ∀ k, 4 * k + 3 < l.length → l.getD (4 * k + 3) 0 = l.getD (4 * k) 0

/-- Concrete open two-point spine used by witnesses. -/
noncomputable def seg_pts : List par_streamlines_position :=
  [⟨0, 0⟩, ⟨1, 0⟩]

/-- Concrete closed unit-square spine used by counterexamples: four
right-angle joints with unit segments. -/
noncomputable def square_pts : List par_streamlines_position :=
  [⟨0, 0⟩, ⟨1, 0⟩, ⟨1, 1⟩, ⟨0, 1⟩]

/-- Concrete closed 3-4-5 triangle spine: the first segment (length 3) and
the closing segment (length 5) differ, which exposes the
distance_along_spine accumulation slip of line 440. -/
noncomputable def tri_pts : List par_streamlines_position :=
  [⟨0, 0⟩, ⟨3, 0⟩, ⟨3, 4⟩]

/-- Witness config: thickness 2, defaults elsewhere (filled mode,
normalized-distance U mode). -/
noncomputable def cfg1 : par_streamlines_config :=
  { thickness := 2 }

/-- Witness spine list: one open spine of length 2. -/
noncomputable def sl1 : par_streamlines_spine_list :=
  { num_vertices := 2, vertices := seg_pts, spine_lengths := [2], closed := false }

/-- Witness spine list: the closed 3-4-5 triangle. -/
noncomputable def sl3 : par_streamlines_spine_list :=
  { num_vertices := 3, vertices := tri_pts, spine_lengths := [3], closed := true }

/-- The mesh par_streamlines_draw_lines returns for cfg1 and sl1. -/
noncomputable def mesh1 : par_streamlines_mesh :=
  { num_vertices := mesh_num_vertices [2] false,
    num_triangles := mesh_num_triangles [2] false,
    vertex_positions := all_positions false 2 [2] seg_pts,
    vertex_annotations :=
      all_annotations PAR_U_MODE_NORMALIZED_DISTANCE 2 false [2] seg_pts,
    vertex_lengths := all_vertex_lengths false [2] seg_pts,
    triangle_indices := all_triangle_indices false false 0 [2] }

/-- The mesh par_streamlines_draw_lines returns for cfg1 and sl3. -/
noncomputable def mesh3 : par_streamlines_mesh :=
  { num_vertices := mesh_num_vertices [3] true,
    num_triangles := mesh_num_triangles [3] true,
    vertex_positions := all_positions true 2 [3] tri_pts,
    vertex_annotations :=
      all_annotations PAR_U_MODE_NORMALIZED_DISTANCE 2 true [3] tri_pts,
    vertex_lengths := all_vertex_lengths true [3] tri_pts,
    triangle_indices := all_triangle_indices false true 0 [3] }

/-- The mesh par_streamlines_draw_lines returns for the wireframe variant
of cfg1 and sl1. -/
noncomputable def mesh1w : par_streamlines_mesh :=
  { num_vertices := mesh_num_vertices [2] false,
    num_triangles := mesh_num_triangles [2] false,
    vertex_positions := all_positions false 2 [2] seg_pts,
    vertex_annotations :=
      all_annotations PAR_U_MODE_NORMALIZED_DISTANCE 2 false [2] seg_pts,
    vertex_lengths := all_vertex_lengths false [2] seg_pts,
    triangle_indices := all_triangle_indices true false 0 [2] }

/-!  ## Generic helper lemmas about the emitted streams -/

/-- Length of a flatMap whose blocks all have two elements. -/
theorem flatMap_pair_length {α : Type} (f : ℕ → List α) (hf : ∀ i, (f i).length = 2) (m : ℕ) :
    ((List.range m).flatMap f).length = 2 * m := by
  induction m with
  | zero => simp
  | succ m ih =>
      rw [List.range_succ, List.flatMap_append, List.length_append, ih]
      simp [hf m]
      omega

/-- Indexing into a flatMap of two-element blocks: entry 2j is the first
element of block j, entry 2j + 1 the second. -/
theorem flatMap_pair_getD {α : Type} (f : ℕ → List α) (g h : ℕ → α)
    (hf : ∀ i, f i = [g i, h i]) (d : α) (m j : ℕ) (hj : j < m) :
    ((List.range m).flatMap f).getD (2 * j) d = g j ∧
      ((List.range m).flatMap f).getD (2 * j + 1) d = h j := by
  induction m with
  | zero => omega
  | succ m ih =>
      have hlen : ((List.range m).flatMap f).length = 2 * m :=
        flatMap_pair_length f (fun i => by rw [hf i]; rfl) m
      rw [List.range_succ, List.flatMap_append]
      rcases Nat.lt_or_ge j m with hjm | hjm
      · rw [List.getD_append _ _ d _ (by omega), List.getD_append _ _ d _ (by omega)]
        exact ih hjm
      · have hj' : j = m := by omega
        subst hj'
        rw [List.getD_append_right _ _ d _ (by omega),
          List.getD_append_right _ _ d _ (by omega), hlen]
        have e1 : 2 * j - 2 * j = 0 := by omega
        have e2 : 2 * j + 1 - 2 * j = 1 := by omega
        rw [e1, e2]
        simp only [List.flatMap_cons, List.flatMap_nil, List.append_nil, hf j]
        exact ⟨rfl, rfl⟩

/-- The U fix-up pass does not change the number of records. -/
theorem fixup_pass_length (mode : par_streamlines_u_mode) (a b : ℝ) :
    ∀ (i : ℕ) (l : List par_streamlines_annotation),
      (fixup_pass mode a b i l).length = l.length
  | _, [] => by simp [fixup_pass]
  | _, [_] => by simp [fixup_pass]
  | i, x :: y :: rest => by
      simp [fixup_pass, fixup_pass_length mode a b (i + 1) rest]

/-- Effect of the U fix-up pass on the record at position j: only
u_along_curve changes, rewritten with the pair counter i + j / 2. -/
theorem fixup_pass_getD (mode : par_streamlines_u_mode) (a b : ℝ) :
    ∀ (i j : ℕ) (l : List par_streamlines_annotation) (d : par_streamlines_annotation),
      j < l.length →
      (fixup_pass mode a b i l).getD j d =
        { l.getD j d with
          u_along_curve := fixup_u mode a b (i + j / 2) (l.getD j d).u_along_curve }
  | _, _, [], _, hj => by simp at hj
  | _, 0, [_], _, _ => by simp [fixup_pass, List.getD]
  | _, j + 1, [_], _, hj => by simp at hj
  | _, 0, _ :: _ :: _, _, _ => by simp [fixup_pass, List.getD]
  | _, 1, _ :: _ :: _, _, _ => by simp [fixup_pass, List.getD]
  | i, j + 2, x :: y :: rest, d, hj => by
      have hj' : j < rest.length := by simpa using hj
      have ih := fixup_pass_getD mode a b (i + 1) j rest d hj'
      have harith : i + 1 + j / 2 = i + (j + 2) / 2 := by omega
      simp only [fixup_pass, List.getD_cons_succ]
      rw [ih, harith]

/-!  ## Length bookkeeping -/

/-- One spine emits 2 * n boundary vertices plus the seam pair when
closed. -/
theorem spine_positions_length (pts : List par_streamlines_position) (n : ℕ) (closed : Bool)
    (t : ℝ) : (spine_positions pts n closed t).length = 2 * n + spine_extra closed := by
  rw [spine_positions, List.length_append,
    flatMap_pair_length (vertex_pair pts n closed t) (fun _ => rfl) n]
  cases closed <;> simp [spine_extra, vertex_pair]

/-- One spine emits 2 * nverts raw annotation records. -/
theorem spine_annotations_raw_length (pts : List par_streamlines_position) (n : ℕ)
    (closed : Bool) (t : ℝ) :
    (spine_annotations_raw pts n closed t).length = 2 * nverts n closed :=
  flatMap_pair_length (annotation_pair pts n closed t) (fun _ => rfl) _

/-- One spine emits 2 * nverts annotation records after the fix-up. -/
theorem spine_annotations_length (mode : par_streamlines_u_mode)
    (pts : List par_streamlines_position) (n : ℕ) (closed : Bool) (t : ℝ) :
    (spine_annotations mode pts n closed t).length = 2 * nverts n closed := by
  rw [spine_annotations, fixup_pass_length, spine_annotations_raw_length]

/-- Pair count against the sizing arithmetic. -/
theorem two_nverts (n : ℕ) (closed : Bool) :
    2 * nverts n closed = 2 * n + spine_extra closed := by
  cases closed <;> simp [nverts, spine_extra] <;> try omega

/-- The position stream has exactly the sized number of vertices. -/
theorem all_positions_length (closed : Bool) (t : ℝ) :
    ∀ (lengths : List ℕ) (vs : List par_streamlines_position),
      (all_positions closed t lengths vs).length = mesh_num_vertices lengths closed
  | [], _ => by simp [all_positions, mesh_num_vertices]
  | len :: rest, vs => by
      simp only [all_positions, List.length_append, spine_positions_length,
        all_positions_length closed t rest (vs.drop len), mesh_num_vertices, List.map_cons,
        List.sum_cons]

/-- The annotation stream has exactly the sized number of vertices. -/
theorem all_annotations_length (mode : par_streamlines_u_mode) (t : ℝ) (closed : Bool) :
    ∀ (lengths : List ℕ) (vs : List par_streamlines_position),
      (all_annotations mode t closed lengths vs).length = mesh_num_vertices lengths closed
  | [], _ => by simp [all_annotations, mesh_num_vertices]
  | len :: rest, vs => by
      simp only [all_annotations, List.length_append, spine_annotations_length, two_nverts,
        all_annotations_length mode t closed rest (vs.drop len), mesh_num_vertices,
        List.map_cons, List.sum_cons]

/-- The vertex-length stream has exactly the sized number of vertices. -/
theorem all_vertex_lengths_length (closed : Bool) :
    ∀ (lengths : List ℕ) (vs : List par_streamlines_position),
      (all_vertex_lengths closed lengths vs).length = mesh_num_vertices lengths closed
  | [], _ => by simp [all_vertex_lengths, mesh_num_vertices]
  | len :: rest, vs => by
      simp only [all_vertex_lengths, List.length_append, spine_vertex_lengths,
        List.length_replicate, two_nverts,
        all_vertex_lengths_length closed rest (vs.drop len), mesh_num_vertices,
        List.map_cons, List.sum_cons]

/-- A segment block holds the indices of two triangles. -/
theorem segment_indices_length (wf : Bool) (base si : ℕ) :
    (segment_indices wf base si).length = 2 * ind_per_tri wf := by
  cases wf <;> rfl

/-- Length of a flatMap whose blocks all have the same length. -/
theorem flatMap_const_length {α : Type} (f : ℕ → List α) (c : ℕ) (hf : ∀ i, (f i).length = c) :
    ∀ l : List ℕ, (l.flatMap f).length = l.length * c
  | [] => by simp
  | j :: rest => by
      simp only [List.flatMap_cons, List.length_append, hf j,
        flatMap_const_length f c hf rest, List.length_cons]
      ring

/-- One spine emits exactly its sized share of the index stream. -/
theorem spine_indices_length (wf closed : Bool) (base n : ℕ) :
    (spine_indices wf closed base n).length =
      (2 * (n - 1) + spine_extra closed) * ind_per_tri wf := by
  rw [spine_indices,
    flatMap_const_length _ (2 * ind_per_tri wf) (fun k => segment_indices_length wf base (k + 1))]
  rw [List.length_range]
  cases closed <;> cases wf <;> simp [spine_extra, ind_per_tri] <;> omega

/-- The index stream length always matches the sizing pass times the
indices-per-triangle factor. -/
theorem all_triangle_indices_length (wf closed : Bool) :
    ∀ (base : ℕ) (lengths : List ℕ),
      (all_triangle_indices wf closed base lengths).length =
        mesh_num_triangles lengths closed * ind_per_tri wf
  | _, [] => by simp [all_triangle_indices, mesh_num_triangles]
  | base, len :: rest => by
      simp only [all_triangle_indices, List.length_append, spine_indices_length,
        all_triangle_indices_length wf closed (base + len * 2 + spine_extra closed) rest,
        mesh_num_triangles, List.map_cons, List.sum_cons]
      ring

/-!  ## Index bounds -/

/-- Every index of a segment block is at most base + si * 2 + 1. -/
theorem segment_indices_le (wf : Bool) (base si : ℕ) :
    ∀ x ∈ segment_indices wf base si, x ≤ base + si * 2 + 1 := by
  cases wf <;> (intro x hx; simp [segment_indices] at hx; omega)

/-- Every index of a spine block stays inside the vertex range of that
spine. -/
theorem spine_indices_lt (wf closed : Bool) (base n : ℕ) (hn : 2 ≤ n) :
    ∀ x ∈ spine_indices wf closed base n, x < base + (2 * n + spine_extra closed) := by
  intro x hx
  rw [spine_indices] at hx
  rcases List.mem_flatMap.mp hx with ⟨k, hk, hxk⟩
  have hk' : k < n - 1 + if closed then 1 else 0 := List.mem_range.mp hk
  have hxle := segment_indices_le wf base (k + 1) x hxk
  cases closed <;> simp [spine_extra] at hk' ⊢ <;> omega

/-- Every index of the whole stream is below base plus the sized vertex
count, provided every spine length is at least 2. -/
theorem all_triangle_indices_lt (wf closed : Bool) :
    ∀ (lengths : List ℕ) (base : ℕ), (∀ len ∈ lengths, 2 ≤ len) →
      ∀ x ∈ all_triangle_indices wf closed base lengths,
        x < base + mesh_num_vertices lengths closed
  | [], _, _ => by simp [all_triangle_indices]
  | len :: rest, base, hl => by
      intro x hx
      have hcons : mesh_num_vertices (len :: rest) closed =
          2 * len + spine_extra closed + mesh_num_vertices rest closed := by
        simp [mesh_num_vertices]
      simp only [all_triangle_indices] at hx
      rcases List.mem_append.mp hx with h | h
      · have := spine_indices_lt wf closed base len (hl len (by simp)) x h
        omega
      · have := all_triangle_indices_lt wf closed rest (base + len * 2 + spine_extra closed)
          (fun l hl' => hl l (by simp [hl'])) x h
        omega

/-!  ## Wireframe 4-tuple structure -/

/-- The empty stream is 4-tuple closed. -/
theorem tuple4_closed_nil : tuple4_closed [] := by
  intro k hk
  simp at hk

/-- Concatenation preserves 4-tuple closure when the first part consists
of whole 4-tuples. -/
theorem tuple4_closed_append (l1 l2 : List ℕ) (h4 : l1.length % 4 = 0)
    (h1 : tuple4_closed l1) (h2 : tuple4_closed l2) : tuple4_closed (l1 ++ l2) := by
  intro k hk
  rw [List.length_append] at hk
  rcases Nat.lt_or_ge (4 * k + 3) l1.length with h | h
  · rw [List.getD_append _ _ _ _ h, List.getD_append _ _ _ _ (by omega)]
    exact h1 k h
  · have h0 : l1.length ≤ 4 * k := by omega
    obtain ⟨q, hq⟩ : ∃ q, l1.length = 4 * q := ⟨l1.length / 4, by omega⟩
    rw [List.getD_append_right _ _ _ _ h, List.getD_append_right _ _ _ _ h0]
    have e1 : 4 * k + 3 - l1.length = 4 * (k - q) + 3 := by omega
    have e2 : 4 * k - l1.length = 4 * (k - q) := by omega
    rw [e1, e2]
    exact h2 (k - q) (by omega)

/-- A wireframe segment block consists of two closed 4-tuples. -/
theorem segment_indices_tuple4 (base si : ℕ) : tuple4_closed (segment_indices true base si) := by
  intro k hk
  simp [segment_indices] at hk
  have hk2 : k ≤ 1 := by omega
  interval_cases k <;> simp [segment_indices, List.getD]

/-- A wireframe spine block is a stream of closed 4-tuples. -/
theorem flatMap_segment_tuple4 (base : ℕ) :
    ∀ js : List ℕ, tuple4_closed (js.flatMap (fun k => segment_indices true base (k + 1)))
  | [] => by simpa using tuple4_closed_nil
  | j :: rest => by
      rw [List.flatMap_cons]
      exact tuple4_closed_append _ _ (by simp [segment_indices])
        (segment_indices_tuple4 base (j + 1)) (flatMap_segment_tuple4 base rest)

/-- The whole wireframe index stream is a stream of closed 4-tuples. -/
theorem all_triangle_indices_tuple4 (closed : Bool) :
    ∀ (base : ℕ) (lengths : List ℕ),
      tuple4_closed (all_triangle_indices true closed base lengths)
  | _, [] => tuple4_closed_nil
  | base, len :: rest => by
      simp only [all_triangle_indices]
      refine tuple4_closed_append _ _ ?_ ?_
        (all_triangle_indices_tuple4 closed (base + len * 2 + spine_extra closed) rest)
      · rw [spine_indices_length]
        simp [ind_per_tri]
      · rw [spine_indices]
        exact flatMap_segment_tuple4 base _

/-!  ## Indexed access into one spine -/

/-- The boundary vertices of real pair i: spine vertex plus and minus the
signed offset. -/
theorem spine_positions_getD (pts : List par_streamlines_position) (n : ℕ) (closed : Bool)
    (t : ℝ) (i : ℕ) (hi : i < n) :
    (spine_positions pts n closed t).getD (2 * i) ⟨0, 0⟩ =
      ⟨(getPos pts i).x + (spine_offset pts n closed t i).x,
       (getPos pts i).y + (spine_offset pts n closed t i).y⟩ ∧
    (spine_positions pts n closed t).getD (2 * i + 1) ⟨0, 0⟩ =
      ⟨(getPos pts i).x - (spine_offset pts n closed t i).x,
       (getPos pts i).y - (spine_offset pts n closed t i).y⟩ := by
  have hlen : ((List.range n).flatMap (vertex_pair pts n closed t)).length = 2 * n :=
    flatMap_pair_length (vertex_pair pts n closed t) (fun _ => rfl) n
  have hpair := flatMap_pair_getD (vertex_pair pts n closed t)
    (fun i => ⟨(getPos pts i).x + (spine_offset pts n closed t i).x,
               (getPos pts i).y + (spine_offset pts n closed t i).y⟩)
    (fun i => ⟨(getPos pts i).x - (spine_offset pts n closed t i).x,
               (getPos pts i).y - (spine_offset pts n closed t i).y⟩)
    (fun _ => rfl) ⟨0, 0⟩ n i hi
  rw [spine_positions, List.getD_append _ _ _ _ (by omega), List.getD_append _ _ _ _ (by omega)]
  exact hpair

/-- The seam pair of a closed spine carries the positions of pair 0. -/
theorem spine_positions_getD_seam (pts : List par_streamlines_position) (n : ℕ) (t : ℝ) :
    (spine_positions pts n true t).getD (2 * n) ⟨0, 0⟩ =
      ⟨(getPos pts 0).x + (spine_offset pts n true t 0).x,
       (getPos pts 0).y + (spine_offset pts n true t 0).y⟩ ∧
    (spine_positions pts n true t).getD (2 * n + 1) ⟨0, 0⟩ =
      ⟨(getPos pts 0).x - (spine_offset pts n true t 0).x,
       (getPos pts 0).y - (spine_offset pts n true t 0).y⟩ := by
  have hlen : ((List.range n).flatMap (vertex_pair pts n true t)).length = 2 * n :=
    flatMap_pair_length (vertex_pair pts n true t) (fun _ => rfl) n
  rw [spine_positions, List.getD_append_right _ _ _ _ (by omega),
    List.getD_append_right _ _ _ _ (by omega), hlen]
  have e1 : 2 * n - 2 * n = 0 := by omega
  have e2 : 2 * n + 1 - 2 * n = 1 := by omega
  rw [e1, e2]
  exact ⟨rfl, rfl⟩

/-- The raw annotation records of pair i. -/
theorem spine_annotations_raw_getD (pts : List par_streamlines_position) (n : ℕ)
    (closed : Bool) (t : ℝ) (i : ℕ) (hi : i < nverts n closed) :
    (spine_annotations_raw pts n closed t).getD (2 * i) annotation_default =
      ⟨cum_distance pts (min i (n - 1)), 1,
        (spine_offset pts n closed t (min i (n - 1))).x,
        (spine_offset pts n closed t (min i (n - 1))).y⟩ ∧
    (spine_annotations_raw pts n closed t).getD (2 * i + 1) annotation_default =
      ⟨cum_distance pts (min i (n - 1)), -1,
        -(spine_offset pts n closed t (min i (n - 1))).x,
        -(spine_offset pts n closed t (min i (n - 1))).y⟩ := by
  exact flatMap_pair_getD (annotation_pair pts n closed t) _ _ (fun _ => rfl)
    annotation_default (nverts n closed) i hi

/-- The annotation records of pair i after the U fix-up: u is the fixed-up
provisional distance, v and spine_to_edge are untouched. -/
theorem spine_annotations_getD (mode : par_streamlines_u_mode)
    (pts : List par_streamlines_position) (n : ℕ) (closed : Bool) (t : ℝ) (i : ℕ)
    (hi : i < nverts n closed) :
    (spine_annotations mode pts n closed t).getD (2 * i) annotation_default =
      ⟨fixup_u mode (1 / total_distance pts n closed) (1 / (n : ℝ)) i
          (cum_distance pts (min i (n - 1))), 1,
        (spine_offset pts n closed t (min i (n - 1))).x,
        (spine_offset pts n closed t (min i (n - 1))).y⟩ ∧
    (spine_annotations mode pts n closed t).getD (2 * i + 1) annotation_default =
      ⟨fixup_u mode (1 / total_distance pts n closed) (1 / (n : ℝ)) i
          (cum_distance pts (min i (n - 1))), -1,
        -(spine_offset pts n closed t (min i (n - 1))).x,
        -(spine_offset pts n closed t (min i (n - 1))).y⟩ := by
  have hraw := spine_annotations_raw_getD pts n closed t i hi
  have hlen : (spine_annotations_raw pts n closed t).length = 2 * nverts n closed :=
    spine_annotations_raw_length pts n closed t
  have h0 := fixup_pass_getD mode (1 / total_distance pts n closed) (1 / (n : ℝ))
    0 (2 * i) (spine_annotations_raw pts n closed t) annotation_default (by omega)
  have h1 := fixup_pass_getD mode (1 / total_distance pts n closed) (1 / (n : ℝ))
    0 (2 * i + 1) (spine_annotations_raw pts n closed t) annotation_default (by omega)
  have e0 : 0 + 2 * i / 2 = i := by omega
  have e1 : 0 + (2 * i + 1) / 2 = i := by omega
  rw [spine_annotations, h0, h1, e0, e1, hraw.1, hraw.2]
  exact ⟨rfl, rfl⟩

/-!  ## Geometry evaluation helpers -/

/-- Evaluate a segment length whose squared length is a perfect square. -/
theorem segment_length_eval (p q : par_streamlines_position) (r : ℝ) (hr : 0 ≤ r)
    (h : (q.x - p.x) * (q.x - p.x) + (q.y - p.y) * (q.y - p.y) = r * r) :
    segment_length p q = r := by
  rw [segment_length, h, Real.sqrt_mul_self hr]

/-- Every segment length is nonnegative. -/
theorem segment_length_nonneg (p q : par_streamlines_position) : 0 ≤ segment_length p q :=
  Real.sqrt_nonneg _

/-- The segment normal of a segment of positive length is a unit vector. -/
theorem segment_normal_unit (p q : par_streamlines_position) (h : 0 < segment_length p q) :
    (segment_normal p q).x * (segment_normal p q).x +
      (segment_normal p q).y * (segment_normal p q).y = 1 := by
  have hS : 0 < (q.x - p.x) * (q.x - p.x) + (q.y - p.y) * (q.y - p.y) := by
    have := Real.sqrt_pos.mp h
    exact this
  have hLL : segment_length p q * segment_length p q =
      (q.x - p.x) * (q.x - p.x) + (q.y - p.y) * (q.y - p.y) :=
    Real.mul_self_sqrt hS.le
  have hL : segment_length p q ≠ 0 := ne_of_gt h
  rw [segment_normal]
  field_simp
  linear_combination -hLL

/-- The miter offset at a right-angle joint of unit normals: the half-angle
machinery collapses to scaling the summed normals by thickness / 2. -/
theorem miter_offset_right_angle (pn nn : par_streamlines_position) (t : ℝ)
    (hdot : pn.x * nn.x + pn.y * nn.y = 0)
    (hsum : (pn.x + nn.x) * (pn.x + nn.x) + (pn.y + nn.y) * (pn.y + nn.y) = 2) :
    miter_offset pn nn t = ⟨(pn.x + nn.x) * (t / 2), (pn.y + nn.y) * (t / 2)⟩ := by
  have hs2 : Real.sqrt 2 ≠ 0 := ne_of_gt (Real.sqrt_pos.mpr (by norm_num))
  have h22 : Real.sqrt 2 * Real.sqrt 2 = 2 := Real.mul_self_sqrt (by norm_num)
  have key : (1 : ℝ) / Real.sqrt 2 * (0.5 * t / (Real.sqrt 2 / 2)) = t / 2 := by
    field_simp
    ring_nf
  simp only [miter_offset, hdot, hsum, Real.arccos_zero]
  rw [show Real.pi / 2 - Real.pi / 2 / 2 = Real.pi / 4 by ring, Real.sin_pi_div_four, key]

/-!  ## Accumulated distance facts -/

/-- Pair 0 carries distance 0. -/
theorem cum_distance_zero (pts : List par_streamlines_position) : cum_distance pts 0 = 0 := by
  simp [cum_distance]

/-- One accumulation step. -/
theorem cum_distance_succ (pts : List par_streamlines_position) (i : ℕ) :
    cum_distance pts (i + 1) =
      cum_distance pts i + segment_length (getPos pts i) (getPos pts (i + 1)) :=
  Finset.sum_range_succ _ i

/-- Accumulated distance is nonnegative. -/
theorem cum_distance_nonneg (pts : List par_streamlines_position) (i : ℕ) :
    0 ≤ cum_distance pts i :=
  Finset.sum_nonneg fun _ _ => segment_length_nonneg _ _

/-- Accumulated distance is monotone in the pair index. -/
theorem cum_distance_mono (pts : List par_streamlines_position) {i j : ℕ} (h : i ≤ j) :
    cum_distance pts i ≤ cum_distance pts j :=
  Finset.sum_le_sum_of_subset_of_nonneg (Finset.range_subset.mpr h)
    (fun _ _ _ => segment_length_nonneg _ _)

/-- Accumulated distance over at least one positive segment is positive. -/
theorem cum_distance_pos (pts : List par_streamlines_position) (i : ℕ) (hi : 1 ≤ i)
    (hseg : ∀ k < i, 0 < segment_length (getPos pts k) (getPos pts (k + 1))) :
    0 < cum_distance pts i := by
  have h0 : 0 < segment_length (getPos pts 0) (getPos pts 1) := hseg 0 (by omega)
  calc 0 < cum_distance pts 1 := by
        rw [cum_distance_succ, cum_distance_zero]
        simpa using h0
    _ ≤ cum_distance pts i := cum_distance_mono pts hi

/-!  ## Offset case analysis -/

/-- Butt cap at the first vertex of an open spine (lines 246 to 247). -/
theorem spine_offset_zero_open (pts : List par_streamlines_position) (n : ℕ) (t : ℝ) :
    spine_offset pts n false t 0 =
      ⟨(segment_normal (getPos pts 0) (getPos pts 1)).x * t / 2,
       (segment_normal (getPos pts 0) (getPos pts 1)).y * t / 2⟩ := by
  simp [spine_offset]

/-- Butt cap at the last vertex of an open spine (lines 360 to 361). -/
theorem spine_offset_last_open (pts : List par_streamlines_position) (n : ℕ) (t : ℝ)
    (hn : 2 ≤ n) :
    spine_offset pts n false t (n - 1) =
      ⟨(segment_normal (getPos pts (n - 2)) (getPos pts (n - 1))).x * t / 2,
       (segment_normal (getPos pts (n - 2)) (getPos pts (n - 1))).y * t / 2⟩ := by
  rw [spine_offset, if_neg (by omega), if_neg (by omega)]
  simp

/-- Wrap-around miter at the first vertex of a closed spine (lines 249 to
266). -/
theorem spine_offset_zero_closed (pts : List par_streamlines_position) (n : ℕ) (t : ℝ) :
    spine_offset pts n true t 0 =
      miter_offset (segment_normal (getPos pts (n - 1)) (getPos pts 0))
        (segment_normal (getPos pts 0) (getPos pts 1)) t := by
  simp [spine_offset]

/-- Wrap-around miter at the last vertex of a closed spine (lines 363 to
380). -/
theorem spine_offset_last_closed (pts : List par_streamlines_position) (n : ℕ) (t : ℝ)
    (hn : 2 ≤ n) :
    spine_offset pts n true t (n - 1) =
      miter_offset (segment_normal (getPos pts (n - 2)) (getPos pts (n - 1)))
        (segment_normal (getPos pts (n - 1)) (getPos pts 0)) t := by
  rw [spine_offset, if_neg (by omega), if_neg (by omega)]
  simp

/-!  ## Concrete evaluations on the example spines -/

/-- Unit segment of the two-point open spine. -/
theorem seg_len01 : segment_length (getPos seg_pts 0) (getPos seg_pts 1) = 1 :=
  segment_length_eval _ _ 1 (by norm_num) (by norm_num [getPos, seg_pts])

/-- The four segments touched on the unit square all have length 1. -/
theorem square_len01 : segment_length (getPos square_pts 0) (getPos square_pts 1) = 1 :=
  segment_length_eval _ _ 1 (by norm_num) (by norm_num [getPos, square_pts])

theorem square_len12 : segment_length (getPos square_pts 1) (getPos square_pts 2) = 1 :=
  segment_length_eval _ _ 1 (by norm_num) (by norm_num [getPos, square_pts])

theorem square_len23 : segment_length (getPos square_pts 2) (getPos square_pts 3) = 1 :=
  segment_length_eval _ _ 1 (by norm_num) (by norm_num [getPos, square_pts])

theorem square_len30 : segment_length (getPos square_pts 3) (getPos square_pts 0) = 1 :=
  segment_length_eval _ _ 1 (by norm_num) (by norm_num [getPos, square_pts])

/-- Accumulated distances on the square: 0, 1, 2, 3. -/
theorem square_cum1 : cum_distance square_pts 1 = 1 := by
  rw [show (1 : ℕ) = 0 + 1 from rfl, cum_distance_succ, cum_distance_zero, square_len01]
  norm_num

theorem square_cum2 : cum_distance square_pts 2 = 2 := by
  rw [show (2 : ℕ) = 1 + 1 from rfl, cum_distance_succ, square_cum1, square_len12]
  norm_num

theorem square_cum3 : cum_distance square_pts 3 = 3 := by
  rw [show (3 : ℕ) = 2 + 1 from rfl, cum_distance_succ, square_cum2, square_len23]
  norm_num

/-- Final distance on the closed square: the open arc 3 plus the length of
the first segment again, giving 4 (here the first and closing segments
have equal length, so the scoping slip of line 440 is invisible). -/
theorem square_total : total_distance square_pts 4 true = 4 := by
  rw [total_distance]
  simp only [if_pos]
  rw [show (4 : ℕ) - 1 = 3 from rfl, square_cum3, square_len01]
  norm_num

/-- Segment normals on the square. -/
theorem square_n01 : segment_normal (getPos square_pts 0) (getPos square_pts 1) = ⟨0, 1⟩ := by
  rw [segment_normal, square_len01]
  norm_num [getPos, square_pts, par_streamlines_position.mk.injEq]

theorem square_n23 : segment_normal (getPos square_pts 2) (getPos square_pts 3) = ⟨0, -1⟩ := by
  rw [segment_normal, square_len23]
  norm_num [getPos, square_pts, par_streamlines_position.mk.injEq]

theorem square_n30 : segment_normal (getPos square_pts 3) (getPos square_pts 0) = ⟨1, 0⟩ := by
  rw [segment_normal, square_len30]
  norm_num [getPos, square_pts, par_streamlines_position.mk.injEq]

/-- The miter offset at vertex 0 of the closed square with thickness 2. -/
theorem square_offset0 : spine_offset square_pts 4 true 2 0 = ⟨1, 1⟩ := by
  rw [spine_offset_zero_closed]
  rw [show (4 : ℕ) - 1 = 3 from rfl, square_n30, square_n01]
  rw [miter_offset_right_angle _ _ 2 (by norm_num) (by norm_num)]
  norm_num [par_streamlines_position.mk.injEq]

/-- The miter offset at vertex 3 of the closed square with thickness 2. -/
theorem square_offset3 : spine_offset square_pts 4 true 2 3 = ⟨1, -1⟩ := by
  have h3 : (3 : ℕ) = 4 - 1 := rfl
  rw [h3, spine_offset_last_closed square_pts 4 2 (by omega)]
  rw [show (4 : ℕ) - 2 = 2 from rfl, show (4 : ℕ) - 1 = 3 from rfl, square_n23, square_n30]
  rw [miter_offset_right_angle _ _ 2 (by norm_num) (by norm_num)]
  norm_num [par_streamlines_position.mk.injEq]

/-- The three segments touched on the 3-4-5 triangle. -/
theorem tri_len01 : segment_length (getPos tri_pts 0) (getPos tri_pts 1) = 3 :=
  segment_length_eval _ _ 3 (by norm_num) (by norm_num [getPos, tri_pts])

theorem tri_len12 : segment_length (getPos tri_pts 1) (getPos tri_pts 2) = 4 :=
  segment_length_eval _ _ 4 (by norm_num) (by norm_num [getPos, tri_pts])

theorem tri_len20 : segment_length (getPos tri_pts 2) (getPos tri_pts 0) = 5 :=
  segment_length_eval _ _ 5 (by norm_num) (by norm_num [getPos, tri_pts])

/-- Open arc of the triangle spine: 3 + 4 = 7. -/
theorem tri_cum2 : cum_distance tri_pts 2 = 7 := by
  rw [show (2 : ℕ) = 1 + 1 from rfl, cum_distance_succ,
    show (1 : ℕ) = 0 + 1 from rfl, cum_distance_succ, cum_distance_zero, tri_len01, tri_len12]
  norm_num

/-- Final distance the code computes for the closed triangle: 7 plus the
FIRST segment length 3 (line 440), not 7 plus the closing length 5. -/
theorem tri_total : total_distance tri_pts 3 true = 10 := by
  rw [total_distance]
  simp only [if_pos]
  rw [show (3 : ℕ) - 1 = 2 from rfl, tri_cum2, tri_len01]
  norm_num

/-!  ## Concrete draw calls for witnesses -/

/-- The draw call on the open two-point spine succeeds and returns mesh1. -/
theorem draw1_eq : par_streamlines_draw_lines cfg1 sl1 = some mesh1 := by
  have hcond : (∀ len ∈ sl1.spine_lengths, 1 < len) ∧
      sl1.spine_lengths.sum = sl1.num_vertices := by
    simp [sl1]
  simp only [par_streamlines_draw_lines, if_pos hcond]
  rfl

/-- The wireframe draw call on the open two-point spine returns mesh1w. -/
theorem draw1w_eq :
    par_streamlines_draw_lines { cfg1 with wireframe := true } sl1 = some mesh1w := by
  have hcond : (∀ len ∈ sl1.spine_lengths, 1 < len) ∧
      sl1.spine_lengths.sum = sl1.num_vertices := by
    simp [sl1]
  simp only [par_streamlines_draw_lines, if_pos hcond]
  rfl

/-- The filled draw call written through a config update, for the C10
witness. -/
theorem draw1f_eq :
    par_streamlines_draw_lines { cfg1 with wireframe := false } sl1 = some mesh1 :=
  draw1_eq

/-- The draw call on the closed 3-4-5 triangle succeeds and returns
mesh3. -/
theorem draw3_eq : par_streamlines_draw_lines cfg1 sl3 = some mesh3 := by
  have hcond : (∀ len ∈ sl3.spine_lengths, 1 < len) ∧
      sl3.spine_lengths.sum = sl3.num_vertices := by
    simp [sl3]
  simp only [par_streamlines_draw_lines, if_pos hcond]
  rfl

/-!  ## Claim theorems -/

/-- C1: for every spine list satisfying the preconditions,
par_streamlines_draw_lines produces a mesh with exactly 2n vertices and
2(n - 1) triangles per open spine of length n, and 2n + 2 vertices and 2n
triangles per closed spine, summed over all spines; the emitted vertex
stream really has that many entries. -/
theorem c1_mesh_vertex_triangle_counts (cfg : par_streamlines_config)
    (sl : par_streamlines_spine_list) (m : par_streamlines_mesh)
    (hm : par_streamlines_draw_lines cfg sl = some m) :
    m.num_vertices =
      (sl.spine_lengths.map (fun n => if sl.closed then 2 * n + 2 else 2 * n)).sum ∧
    m.num_triangles =
      (sl.spine_lengths.map (fun n => if sl.closed then 2 * n else 2 * (n - 1))).sum ∧
    m.vertex_positions.length = m.num_vertices := by
  by_cases hc : (∀ len ∈ sl.spine_lengths, 1 < len) ∧
      sl.spine_lengths.sum = sl.num_vertices
  · simp only [par_streamlines_draw_lines, if_pos hc] at hm
    obtain ⟨hlen, _⟩ := hc
    injection hm with hm
    subst hm
    refine ⟨?_, ?_, ?_⟩
    · cases hcl : sl.closed <;> simp [mesh_num_vertices, spine_extra]
    · cases hcl : sl.closed
      · simp [mesh_num_triangles, spine_extra]
      · have hmap : ∀ len ∈ sl.spine_lengths, 2 * (len - 1) + spine_extra true = 2 * len := by
          intro len h
          have := hlen len h
          simp [spine_extra]
          omega
        simp only [mesh_num_triangles, List.map_congr_left hmap, if_pos]
    · exact all_positions_length sl.closed cfg.thickness sl.spine_lengths sl.vertices
  · simp only [par_streamlines_draw_lines, if_neg hc] at hm
    exact absurd hm (by simp)

/-- Witness for C1 at the concrete open two-point spine. -/
theorem c1_witness :
    par_streamlines_draw_lines cfg1 sl1 = some mesh1 ∧
    (mesh1.num_vertices =
        (sl1.spine_lengths.map (fun n => if sl1.closed then 2 * n + 2 else 2 * n)).sum ∧
      mesh1.num_triangles =
        (sl1.spine_lengths.map (fun n => if sl1.closed then 2 * n else 2 * (n - 1))).sum ∧
      mesh1.vertex_positions.length = mesh1.num_vertices) :=
  ⟨draw1_eq, c1_mesh_vertex_triangle_counts cfg1 sl1 mesh1 draw1_eq⟩

/-- C2: every mesh returned by par_streamlines_draw_lines satisfies the
index-buffer invariant: every entry of triangle_indices is strictly below
num_vertices, and the index stream holds num_triangles times
indices-per-triangle entries (3 filled, 4 wireframe). -/
theorem c2_index_buffer_invariant (cfg : par_streamlines_config)
    (sl : par_streamlines_spine_list) (m : par_streamlines_mesh)
    (hm : par_streamlines_draw_lines cfg sl = some m) :
    (∀ x ∈ m.triangle_indices, x < m.num_vertices) ∧
    m.triangle_indices.length = m.num_triangles * ind_per_tri cfg.wireframe := by
  by_cases hc : (∀ len ∈ sl.spine_lengths, 1 < len) ∧
      sl.spine_lengths.sum = sl.num_vertices
  · simp only [par_streamlines_draw_lines, if_pos hc] at hm
    obtain ⟨hlen, _⟩ := hc
    injection hm with hm
    subst hm
    constructor
    · intro x hx
      have := all_triangle_indices_lt cfg.wireframe sl.closed sl.spine_lengths 0
        (fun len h => by have := hlen len h; omega) x hx
      simpa using this
    · exact all_triangle_indices_length cfg.wireframe sl.closed 0 sl.spine_lengths
  · simp only [par_streamlines_draw_lines, if_neg hc] at hm
    exact absurd hm (by simp)

/-- Witness for C2 at the concrete open two-point spine. -/
theorem c2_witness :
    par_streamlines_draw_lines cfg1 sl1 = some mesh1 ∧
    ((∀ x ∈ mesh1.triangle_indices, x < mesh1.num_vertices) ∧
      mesh1.triangle_indices.length = mesh1.num_triangles * ind_per_tri cfg1.wireframe) :=
  ⟨draw1_eq, c2_index_buffer_invariant cfg1 sl1 mesh1 draw1_eq⟩

/-- C9: par_streamlines_draw_lines fails with an assertion-level contract
violation exactly when some spine has length at most 1 or the spine
lengths disagree with num_vertices; when the preconditions hold, every
assertion passes (the emitted streams have exactly the sized extents) and
a mesh is returned. -/
theorem c9_precondition_contract (cfg : par_streamlines_config)
    (sl : par_streamlines_spine_list) :
    (par_streamlines_draw_lines cfg sl = none ↔
      ¬ ((∀ len ∈ sl.spine_lengths, 1 < len) ∧
          sl.spine_lengths.sum = sl.num_vertices)) ∧
    ((∀ len ∈ sl.spine_lengths, 1 < len) → sl.spine_lengths.sum = sl.num_vertices →
      ∃ m, par_streamlines_draw_lines cfg sl = some m ∧
        m.vertex_positions.length = m.num_vertices ∧
        m.vertex_annotations.length = m.num_vertices ∧
        m.vertex_lengths.length = m.num_vertices ∧
        m.triangle_indices.length = m.num_triangles * ind_per_tri cfg.wireframe) := by
  by_cases hc : (∀ len ∈ sl.spine_lengths, 1 < len) ∧
      sl.spine_lengths.sum = sl.num_vertices
  · constructor
    · refine iff_of_false ?_ (not_not_intro hc)
      simp only [par_streamlines_draw_lines, if_pos hc]
      simp
    · intro _ _
      simp only [par_streamlines_draw_lines, if_pos hc]
      exact ⟨_, rfl,
        all_positions_length sl.closed cfg.thickness sl.spine_lengths sl.vertices,
        all_annotations_length cfg.u_mode cfg.thickness sl.closed
          sl.spine_lengths sl.vertices,
        all_vertex_lengths_length sl.closed sl.spine_lengths sl.vertices,
        all_triangle_indices_length cfg.wireframe sl.closed 0 sl.spine_lengths⟩
  · constructor
    · simp only [par_streamlines_draw_lines, if_neg hc]
      simp [hc]
    · intro h1 h2
      exact absurd ⟨h1, h2⟩ hc

/-- Witness for C9 at the concrete open two-point spine. -/
theorem c9_witness :
    (∀ len ∈ sl1.spine_lengths, 1 < len) ∧ sl1.spine_lengths.sum = sl1.num_vertices ∧
    (∃ m, par_streamlines_draw_lines cfg1 sl1 = some m ∧
      m.vertex_positions.length = m.num_vertices ∧
      m.vertex_annotations.length = m.num_vertices ∧
      m.vertex_lengths.length = m.num_vertices ∧
      m.triangle_indices.length = m.num_triangles * ind_per_tri cfg1.wireframe) :=
  ⟨by simp [sl1], by simp [sl1],
    (c9_precondition_contract cfg1 sl1).2 (by simp [sl1]) (by simp [sl1])⟩

/-- C10: for the same spine list, wireframe mode emits an index stream
4/3 as long as filled mode (4 indices per triangle instead of 3, equal
triangle counts), and the 4th entry of every emitted 4-tuple equals the
first entry of that same tuple. -/
theorem c10_wireframe_stream (cfg : par_streamlines_config)
    (sl : par_streamlines_spine_list) (mw mf : par_streamlines_mesh)
    (hw : par_streamlines_draw_lines { cfg with wireframe := true } sl = some mw)
    (hf : par_streamlines_draw_lines { cfg with wireframe := false } sl = some mf) :
    3 * mw.triangle_indices.length = 4 * mf.triangle_indices.length ∧
    mw.num_triangles = mf.num_triangles ∧
    tuple4_closed mw.triangle_indices := by
  by_cases hc : (∀ len ∈ sl.spine_lengths, 1 < len) ∧
      sl.spine_lengths.sum = sl.num_vertices
  · simp only [par_streamlines_draw_lines, if_pos hc] at hw hf
    injection hw with hw
    injection hf with hf
    subst hw
    subst hf
    refine ⟨?_, rfl, ?_⟩
    · rw [all_triangle_indices_length, all_triangle_indices_length]
      simp [ind_per_tri]
      ring
    · exact all_triangle_indices_tuple4 sl.closed 0 sl.spine_lengths
  · simp only [par_streamlines_draw_lines, if_neg hc] at hw
    exact absurd hw (by simp)

/-- Witness for C10 at the concrete open two-point spine: the wireframe
stream has 8 entries against 6 filled ones, and the first 4-tuple closes
on its own first index. -/
theorem c10_witness :
    par_streamlines_draw_lines { cfg1 with wireframe := true } sl1 = some mesh1w ∧
    par_streamlines_draw_lines { cfg1 with wireframe := false } sl1 = some mesh1 ∧
    3 * mesh1w.triangle_indices.length = 4 * mesh1.triangle_indices.length ∧
    mesh1w.num_triangles = mesh1.num_triangles ∧
    mesh1w.triangle_indices.getD 3 0 = mesh1w.triangle_indices.getD 0 0 :=
  ⟨draw1w_eq, draw1f_eq,
    (c10_wireframe_stream cfg1 sl1 mesh1w mesh1 draw1w_eq draw1f_eq).1,
    (c10_wireframe_stream cfg1 sl1 mesh1w mesh1 draw1w_eq draw1f_eq).2.1,
    (c10_wireframe_stream cfg1 sl1 mesh1w mesh1 draw1w_eq draw1f_eq).2.2 0 (by decide)⟩

/-- C6: in SEGMENT_FRACTION mode the u written for the pair at 0-based
index i within a spine equals i / spine_length exactly; over an open spine
of length n the values are monotone with maximum (n - 1) / n, which is
not 1. -/
theorem c6_segment_fraction_u (pts : List par_streamlines_position) (n : ℕ) (closed : Bool)
    (t : ℝ) (i : ℕ) (hi : i < nverts n closed) :
    ((spine_annotations PAR_U_MODE_SEGMENT_FRACTION pts n closed t).getD (2 * i)
        annotation_default).u_along_curve = (i : ℝ) / (n : ℝ) ∧
    ((spine_annotations PAR_U_MODE_SEGMENT_FRACTION pts n closed t).getD (2 * i + 1)
        annotation_default).u_along_curve = (i : ℝ) / (n : ℝ) ∧
    (closed = false → 2 ≤ n →
      (i : ℝ) / (n : ℝ) ≤ ((n - 1 : ℕ) : ℝ) / (n : ℝ) ∧
        ((n - 1 : ℕ) : ℝ) / (n : ℝ) ≠ 1) := by
  have h := spine_annotations_getD PAR_U_MODE_SEGMENT_FRACTION pts n closed t i hi
  have hu : fixup_u PAR_U_MODE_SEGMENT_FRACTION (1 / total_distance pts n closed)
      (1 / (n : ℝ)) i (cum_distance pts (min i (n - 1))) = (i : ℝ) / (n : ℝ) := by
    rw [fixup_u, one_div_mul_eq_div]
  refine ⟨?_, ?_, ?_⟩
  · rw [h.1]
    exact hu
  · rw [h.2]
    exact hu
  · intro hcl hn
    subst hcl
    have hn0 : (0 : ℝ) < (n : ℝ) := by exact_mod_cast (by omega : 0 < n)
    constructor
    · have hin : i ≤ n - 1 := by
        have : nverts n false = n := by simp [nverts]
        omega
      exact (div_le_div_iff_of_pos_right hn0).mpr (by exact_mod_cast hin)
    · rw [Nat.cast_sub (by omega : 1 ≤ n)]
      intro heq
      rw [div_eq_one_iff_eq (ne_of_gt hn0)] at heq
      push_cast at heq
      linarith

/-- Witness for C6: pair 1 of an open two-point spine gets u = 1 / 2, and
the maximum pair value (n - 1) / n = 1 / 2 differs from 1. -/
theorem c6_witness :
    1 < nverts 2 false ∧
    (((spine_annotations PAR_U_MODE_SEGMENT_FRACTION seg_pts 2 false 2).getD (2 * 1)
        annotation_default).u_along_curve = ((1 : ℕ) : ℝ) / ((2 : ℕ) : ℝ) ∧
      ((spine_annotations PAR_U_MODE_SEGMENT_FRACTION seg_pts 2 false 2).getD (2 * 1 + 1)
        annotation_default).u_along_curve = ((1 : ℕ) : ℝ) / ((2 : ℕ) : ℝ) ∧
      (false = false → 2 ≤ 2 →
        ((1 : ℕ) : ℝ) / ((2 : ℕ) : ℝ) ≤ ((2 - 1 : ℕ) : ℝ) / ((2 : ℕ) : ℝ) ∧
          ((2 - 1 : ℕ) : ℝ) / ((2 : ℕ) : ℝ) ≠ 1)) :=
  ⟨by norm_num [nverts], c6_segment_fraction_u seg_pts 2 false 2 1 (by norm_num [nverts])⟩

/-- C7: for every closed spine, the duplicated terminal boundary-vertex
pair emitted after the last real vertex equals the first boundary-vertex
pair of that spine (the source copies the stored first pair, so the
positions are identical bit for bit). -/
theorem c7_seam_pair_duplicates_first (pts : List par_streamlines_position) (n : ℕ) (t : ℝ)
    (hn : 1 ≤ n) :
    (spine_positions pts n true t).getD (2 * n) ⟨0, 0⟩ =
      (spine_positions pts n true t).getD 0 ⟨0, 0⟩ ∧
    (spine_positions pts n true t).getD (2 * n + 1) ⟨0, 0⟩ =
      (spine_positions pts n true t).getD 1 ⟨0, 0⟩ := by
  have h0 := spine_positions_getD pts n true t 0 (by omega)
  have hseam := spine_positions_getD_seam pts n t
  have h01 := h0.1
  have h02 := h0.2
  rw [Nat.mul_zero] at h01 h02
  rw [Nat.zero_add] at h02
  exact ⟨by rw [hseam.1, h01], by rw [hseam.2, h02]⟩

/-- Witness for C7 on the closed unit square. -/
theorem c7_witness :
    1 ≤ 4 ∧
    ((spine_positions square_pts 4 true 2).getD (2 * 4) ⟨0, 0⟩ =
        (spine_positions square_pts 4 true 2).getD 0 ⟨0, 0⟩ ∧
      (spine_positions square_pts 4 true 2).getD (2 * 4 + 1) ⟨0, 0⟩ =
        (spine_positions square_pts 4 true 2).getD 1 ⟨0, 0⟩) :=
  ⟨by norm_num, c7_seam_pair_duplicates_first square_pts 4 2 (by norm_num)⟩

/-- C8: for every open spine, the boundary pair at the first spine vertex
is offset by exactly the first segment normal scaled by thickness / 2, and
the pair at the last spine vertex by the last segment normal scaled by
thickness / 2 (butt caps, no miter bisection); those normals are unit
vectors whenever the adjacent segment has positive length. -/
theorem c8_open_butt_caps (pts : List par_streamlines_position) (n : ℕ) (t : ℝ)
    (hn : 2 ≤ n)
    (hfirst : 0 < segment_length (getPos pts 0) (getPos pts 1))
    (hlast : 0 < segment_length (getPos pts (n - 2)) (getPos pts (n - 1))) :
    (spine_positions pts n false t).getD 0 ⟨0, 0⟩ =
      ⟨(getPos pts 0).x + (segment_normal (getPos pts 0) (getPos pts 1)).x * t / 2,
       (getPos pts 0).y + (segment_normal (getPos pts 0) (getPos pts 1)).y * t / 2⟩ ∧
    (spine_positions pts n false t).getD 1 ⟨0, 0⟩ =
      ⟨(getPos pts 0).x - (segment_normal (getPos pts 0) (getPos pts 1)).x * t / 2,
       (getPos pts 0).y - (segment_normal (getPos pts 0) (getPos pts 1)).y * t / 2⟩ ∧
    (spine_positions pts n false t).getD (2 * (n - 1)) ⟨0, 0⟩ =
      ⟨(getPos pts (n - 1)).x +
          (segment_normal (getPos pts (n - 2)) (getPos pts (n - 1))).x * t / 2,
       (getPos pts (n - 1)).y +
          (segment_normal (getPos pts (n - 2)) (getPos pts (n - 1))).y * t / 2⟩ ∧
    (spine_positions pts n false t).getD (2 * (n - 1) + 1) ⟨0, 0⟩ =
      ⟨(getPos pts (n - 1)).x -
          (segment_normal (getPos pts (n - 2)) (getPos pts (n - 1))).x * t / 2,
       (getPos pts (n - 1)).y -
          (segment_normal (getPos pts (n - 2)) (getPos pts (n - 1))).y * t / 2⟩ ∧
    (segment_normal (getPos pts 0) (getPos pts 1)).x *
        (segment_normal (getPos pts 0) (getPos pts 1)).x +
      (segment_normal (getPos pts 0) (getPos pts 1)).y *
        (segment_normal (getPos pts 0) (getPos pts 1)).y = 1 ∧
    (segment_normal (getPos pts (n - 2)) (getPos pts (n - 1))).x *
        (segment_normal (getPos pts (n - 2)) (getPos pts (n - 1))).x +
      (segment_normal (getPos pts (n - 2)) (getPos pts (n - 1))).y *
        (segment_normal (getPos pts (n - 2)) (getPos pts (n - 1))).y = 1 := by
  have h0 := spine_positions_getD pts n false t 0 (by omega)
  have hl := spine_positions_getD pts n false t (n - 1) (by omega)
  have h01 := h0.1
  have h02 := h0.2
  rw [Nat.mul_zero] at h01 h02
  rw [Nat.zero_add] at h02
  rw [spine_offset_zero_open] at h01 h02
  have hl1 := hl.1
  have hl2 := hl.2
  rw [spine_offset_last_open pts n t hn] at hl1 hl2
  exact ⟨h01, h02, hl1, hl2,
    segment_normal_unit _ _ hfirst, segment_normal_unit _ _ hlast⟩

/-- Witness for C8 on the open two-point spine with thickness 2. -/
theorem c8_witness :
    2 ≤ 2 ∧ 0 < segment_length (getPos seg_pts 0) (getPos seg_pts 1) ∧
    ((spine_positions seg_pts 2 false 2).getD 0 ⟨0, 0⟩ =
      ⟨(getPos seg_pts 0).x + (segment_normal (getPos seg_pts 0) (getPos seg_pts 1)).x * 2 / 2,
       (getPos seg_pts 0).y +
          (segment_normal (getPos seg_pts 0) (getPos seg_pts 1)).y * 2 / 2⟩ ∧
      (spine_positions seg_pts 2 false 2).getD 1 ⟨0, 0⟩ =
      ⟨(getPos seg_pts 0).x - (segment_normal (getPos seg_pts 0) (getPos seg_pts 1)).x * 2 / 2,
       (getPos seg_pts 0).y -
          (segment_normal (getPos seg_pts 0) (getPos seg_pts 1)).y * 2 / 2⟩ ∧
      (spine_positions seg_pts 2 false 2).getD (2 * (2 - 1)) ⟨0, 0⟩ =
      ⟨(getPos seg_pts (2 - 1)).x +
          (segment_normal (getPos seg_pts (2 - 2)) (getPos seg_pts (2 - 1))).x * 2 / 2,
       (getPos seg_pts (2 - 1)).y +
          (segment_normal (getPos seg_pts (2 - 2)) (getPos seg_pts (2 - 1))).y * 2 / 2⟩ ∧
      (spine_positions seg_pts 2 false 2).getD (2 * (2 - 1) + 1) ⟨0, 0⟩ =
      ⟨(getPos seg_pts (2 - 1)).x -
          (segment_normal (getPos seg_pts (2 - 2)) (getPos seg_pts (2 - 1))).x * 2 / 2,
       (getPos seg_pts (2 - 1)).y -
          (segment_normal (getPos seg_pts (2 - 2)) (getPos seg_pts (2 - 1))).y * 2 / 2⟩ ∧
      (segment_normal (getPos seg_pts 0) (getPos seg_pts 1)).x *
          (segment_normal (getPos seg_pts 0) (getPos seg_pts 1)).x +
        (segment_normal (getPos seg_pts 0) (getPos seg_pts 1)).y *
          (segment_normal (getPos seg_pts 0) (getPos seg_pts 1)).y = 1 ∧
      (segment_normal (getPos seg_pts (2 - 2)) (getPos seg_pts (2 - 1))).x *
          (segment_normal (getPos seg_pts (2 - 2)) (getPos seg_pts (2 - 1))).x +
        (segment_normal (getPos seg_pts (2 - 2)) (getPos seg_pts (2 - 1))).y *
          (segment_normal (getPos seg_pts (2 - 2)) (getPos seg_pts (2 - 1))).y = 1) :=
  ⟨by norm_num, by rw [seg_len01]; norm_num,
    c8_open_butt_caps seg_pts 2 2 (by norm_num) (by rw [seg_len01]; norm_num)
      (by rw [show (2 : ℕ) - 2 = 0 from rfl, show (2 : ℕ) - 1 = 1 from rfl, seg_len01]
          norm_num)⟩

/-- C4 (amended): in NORMALIZED_DISTANCE mode, over an OPEN spine whose
segments all have positive length, every emitted vertex (even and odd
members of every pair) carries a u value in [0, 1]; both members of pair 0
carry 0 and both members of the last pair carry 1, so the minimum over the
emitted vertices is 0 and the maximum is 1.  (For closed spines the
original claim fails: see the counterexample on the unit square.) -/
theorem c4_normalized_open_range (pts : List par_streamlines_position) (n : ℕ) (t : ℝ)
    (hn : 2 ≤ n)
    (hseg : ∀ k < n - 1, 0 < segment_length (getPos pts k) (getPos pts (k + 1))) :
    ((spine_annotations PAR_U_MODE_NORMALIZED_DISTANCE pts n false t).getD 0
        annotation_default).u_along_curve = 0 ∧
    ((spine_annotations PAR_U_MODE_NORMALIZED_DISTANCE pts n false t).getD 1
        annotation_default).u_along_curve = 0 ∧
    ((spine_annotations PAR_U_MODE_NORMALIZED_DISTANCE pts n false t).getD (2 * (n - 1))
        annotation_default).u_along_curve = 1 ∧
    ((spine_annotations PAR_U_MODE_NORMALIZED_DISTANCE pts n false t).getD (2 * (n - 1) + 1)
        annotation_default).u_along_curve = 1 ∧
    (∀ j < 2 * n,
      0 ≤ ((spine_annotations PAR_U_MODE_NORMALIZED_DISTANCE pts n false t).getD j
          annotation_default).u_along_curve ∧
      ((spine_annotations PAR_U_MODE_NORMALIZED_DISTANCE pts n false t).getD j
          annotation_default).u_along_curve ≤ 1) := by
  have hS : 0 < cum_distance pts (n - 1) :=
    cum_distance_pos pts (n - 1) (by omega) hseg
  have htot : total_distance pts n false = cum_distance pts (n - 1) := by
    simp [total_distance]
  have hval : ∀ i, i < nverts n false →
      ((spine_annotations PAR_U_MODE_NORMALIZED_DISTANCE pts n false t).getD (2 * i)
          annotation_default).u_along_curve =
        cum_distance pts (min i (n - 1)) / cum_distance pts (n - 1) ∧
      ((spine_annotations PAR_U_MODE_NORMALIZED_DISTANCE pts n false t).getD (2 * i + 1)
          annotation_default).u_along_curve =
        cum_distance pts (min i (n - 1)) / cum_distance pts (n - 1) := by
    intro i hi
    have h := spine_annotations_getD PAR_U_MODE_NORMALIZED_DISTANCE pts n false t i hi
    constructor
    · rw [h.1]
      show fixup_u PAR_U_MODE_NORMALIZED_DISTANCE (1 / total_distance pts n false)
          (1 / (n : ℝ)) i (cum_distance pts (min i (n - 1))) = _
      rw [fixup_u, htot, mul_one_div]
    · rw [h.2]
      show fixup_u PAR_U_MODE_NORMALIZED_DISTANCE (1 / total_distance pts n false)
          (1 / (n : ℝ)) i (cum_distance pts (min i (n - 1))) = _
      rw [fixup_u, htot, mul_one_div]
  have hrange : ∀ i, 0 ≤ cum_distance pts (min i (n - 1)) / cum_distance pts (n - 1) ∧
      cum_distance pts (min i (n - 1)) / cum_distance pts (n - 1) ≤ 1 := by
    intro i
    constructor
    · exact div_nonneg (cum_distance_nonneg pts _) hS.le
    · rw [div_le_one hS]
      exact cum_distance_mono pts (min_le_right i (n - 1))
  refine ⟨?_, ?_, ?_, ?_, ?_⟩
  · have h := (hval 0 (by simp [nverts]; omega)).1
    rw [Nat.mul_zero] at h
    rw [h]
    simp [cum_distance_zero]
  · have h := (hval 0 (by simp [nverts]; omega)).2
    rw [Nat.mul_zero, Nat.zero_add] at h
    rw [h]
    simp [cum_distance_zero]
  · have h := (hval (n - 1) (by simp [nverts]; omega)).1
    rw [h, min_self, div_self (ne_of_gt hS)]
  · have h := (hval (n - 1) (by simp [nverts]; omega)).2
    rw [h, min_self, div_self (ne_of_gt hS)]
  · intro j hj
    have hi : j / 2 < nverts n false := by
      simp [nverts]
      omega
    rcases (by omega : j = 2 * (j / 2) ∨ j = 2 * (j / 2) + 1) with hsplit | hsplit
    · rw [hsplit, (hval (j / 2) hi).1]
      exact hrange (j / 2)
    · rw [hsplit, (hval (j / 2) hi).2]
      exact hrange (j / 2)

/-- Witness for C4 (amended) on the open two-point spine. -/
theorem c4_witness :
    2 ≤ 2 ∧
    (∀ k < 2 - 1, 0 < segment_length (getPos seg_pts k) (getPos seg_pts (k + 1))) ∧
    (((spine_annotations PAR_U_MODE_NORMALIZED_DISTANCE seg_pts 2 false 2).getD 0
        annotation_default).u_along_curve = 0 ∧
      ((spine_annotations PAR_U_MODE_NORMALIZED_DISTANCE seg_pts 2 false 2).getD 1
        annotation_default).u_along_curve = 0 ∧
      ((spine_annotations PAR_U_MODE_NORMALIZED_DISTANCE seg_pts 2 false 2).getD (2 * (2 - 1))
        annotation_default).u_along_curve = 1 ∧
      ((spine_annotations PAR_U_MODE_NORMALIZED_DISTANCE seg_pts 2 false 2).getD
          (2 * (2 - 1) + 1) annotation_default).u_along_curve = 1 ∧
      (∀ j < 2 * 2,
        0 ≤ ((spine_annotations PAR_U_MODE_NORMALIZED_DISTANCE seg_pts 2 false 2).getD j
            annotation_default).u_along_curve ∧
        ((spine_annotations PAR_U_MODE_NORMALIZED_DISTANCE seg_pts 2 false 2).getD j
            annotation_default).u_along_curve ≤ 1)) := by
  have hseg : ∀ k < 2 - 1, 0 < segment_length (getPos seg_pts k) (getPos seg_pts (k + 1)) := by
    intro k hk
    have hk0 : k = 0 := by omega
    subst hk0
    rw [seg_len01]
    norm_num
  exact ⟨by norm_num, hseg, c4_normalized_open_range seg_pts 2 2 (by norm_num) hseg⟩

/-- C4 counterexample: on the closed unit square in NORMALIZED_DISTANCE
mode the ten u values are 0, 0, 1/4, 1/4, 1/2, 1/2, 3/4, 3/4, 3/4, 3/4:
the seam pair u is written before the final accumulation step, so the
maximum over the spine is 3/4, not 1, refuting the claim for closed
spines. -/
theorem c4_closed_counterexample :
    (spine_annotations PAR_U_MODE_NORMALIZED_DISTANCE square_pts 4 true 2).length = 10 ∧
    ((spine_annotations PAR_U_MODE_NORMALIZED_DISTANCE square_pts 4 true 2).getD 0
        annotation_default).u_along_curve = 0 ∧
    ((spine_annotations PAR_U_MODE_NORMALIZED_DISTANCE square_pts 4 true 2).getD 1
        annotation_default).u_along_curve = 0 ∧
    ((spine_annotations PAR_U_MODE_NORMALIZED_DISTANCE square_pts 4 true 2).getD 2
        annotation_default).u_along_curve = 1 / 4 ∧
    ((spine_annotations PAR_U_MODE_NORMALIZED_DISTANCE square_pts 4 true 2).getD 3
        annotation_default).u_along_curve = 1 / 4 ∧
    ((spine_annotations PAR_U_MODE_NORMALIZED_DISTANCE square_pts 4 true 2).getD 4
        annotation_default).u_along_curve = 1 / 2 ∧
    ((spine_annotations PAR_U_MODE_NORMALIZED_DISTANCE square_pts 4 true 2).getD 5
        annotation_default).u_along_curve = 1 / 2 ∧
    ((spine_annotations PAR_U_MODE_NORMALIZED_DISTANCE square_pts 4 true 2).getD 6
        annotation_default).u_along_curve = 3 / 4 ∧
    ((spine_annotations PAR_U_MODE_NORMALIZED_DISTANCE square_pts 4 true 2).getD 7
        annotation_default).u_along_curve = 3 / 4 ∧
    ((spine_annotations PAR_U_MODE_NORMALIZED_DISTANCE square_pts 4 true 2).getD 8
        annotation_default).u_along_curve = 3 / 4 ∧
    ((spine_annotations PAR_U_MODE_NORMALIZED_DISTANCE square_pts 4 true 2).getD 9
        annotation_default).u_along_curve = 3 / 4 ∧
    (0 : ℝ) ≠ 1 ∧ (1 / 4 : ℝ) ≠ 1 ∧ (1 / 2 : ℝ) ≠ 1 ∧ (3 / 4 : ℝ) ≠ 1 := by
  have hv : ∀ i : ℕ, i < 5 → i < nverts 4 true := by
    intro i hi
    simpa [nverts] using hi
  have h0 := spine_annotations_getD PAR_U_MODE_NORMALIZED_DISTANCE square_pts 4 true 2 0 (hv 0 (by norm_num))
  have h1 := spine_annotations_getD PAR_U_MODE_NORMALIZED_DISTANCE square_pts 4 true 2 1 (hv 1 (by norm_num))
  have h2 := spine_annotations_getD PAR_U_MODE_NORMALIZED_DISTANCE square_pts 4 true 2 2 (hv 2 (by norm_num))
  have h3 := spine_annotations_getD PAR_U_MODE_NORMALIZED_DISTANCE square_pts 4 true 2 3 (hv 3 (by norm_num))
  have h4 := spine_annotations_getD PAR_U_MODE_NORMALIZED_DISTANCE square_pts 4 true 2 4 (hv 4 (by norm_num))
  have e01 := h0.1
  have e02 := h0.2
  have e11 := h1.1
  have e12 := h1.2
  have e21 := h2.1
  have e22 := h2.2
  have e31 := h3.1
  have e32 := h3.2
  have e41 := h4.1
  have e42 := h4.2
  rw [show (2 : ℕ) * 0 = 0 from rfl] at e01
  rw [show (2 : ℕ) * 0 + 1 = 1 from rfl] at e02
  rw [show (2 : ℕ) * 1 = 2 from rfl] at e11
  rw [show (2 : ℕ) * 1 + 1 = 3 from rfl] at e12
  rw [show (2 : ℕ) * 2 = 4 from rfl] at e21
  rw [show (2 : ℕ) * 2 + 1 = 5 from rfl] at e22
  rw [show (2 : ℕ) * 3 = 6 from rfl] at e31
  rw [show (2 : ℕ) * 3 + 1 = 7 from rfl] at e32
  rw [show (2 : ℕ) * 4 = 8 from rfl] at e41
  rw [show (2 : ℕ) * 4 + 1 = 9 from rfl] at e42
  have hcum0 : cum_distance square_pts (min 0 (4 - 1)) = 0 := by
    simpa using cum_distance_zero square_pts
  have hcum1 : cum_distance square_pts (min 1 (4 - 1)) = 1 := by
    simpa using square_cum1
  have hcum2 : cum_distance square_pts (min 2 (4 - 1)) = 2 := by
    simpa using square_cum2
  have hcum3 : cum_distance square_pts (min 3 (4 - 1)) = 3 := by
    simpa using square_cum3
  have hcum4 : cum_distance square_pts (min 4 (4 - 1)) = 3 := by
    simpa using square_cum3
  refine ⟨?_, ?_, ?_, ?_, ?_, ?_, ?_, ?_, ?_, ?_, ?_,
    by norm_num, by norm_num, by norm_num, by norm_num⟩
  · rw [spine_annotations_length]
    rfl
  · rw [e01]
    dsimp only
    rw [fixup_u, hcum0, square_total]
    norm_num
  · rw [e02]
    dsimp only
    rw [fixup_u, hcum0, square_total]
    norm_num
  · rw [e11]
    dsimp only
    rw [fixup_u, hcum1, square_total]
    norm_num
  · rw [e12]
    dsimp only
    rw [fixup_u, hcum1, square_total]
    norm_num
  · rw [e21]
    dsimp only
    rw [fixup_u, hcum2, square_total]
    norm_num
  · rw [e22]
    dsimp only
    rw [fixup_u, hcum2, square_total]
    norm_num
  · rw [e31]
    dsimp only
    rw [fixup_u, hcum3, square_total]
    norm_num
  · rw [e32]
    dsimp only
    rw [fixup_u, hcum3, square_total]
    norm_num
  · rw [e41]
    dsimp only
    rw [fixup_u, hcum4, square_total]
    norm_num
  · rw [e42]
    dsimp only
    rw [fixup_u, hcum4, square_total]
    norm_num

/-- C5 (amended): for every REAL (non-seam) pair i, the even boundary
vertex is the spine vertex plus the stored spine_to_edge vector, the odd
one is the spine vertex minus it, and the odd record stores exactly the
negated vector.  (The seam pair of a closed spine breaks the claimed
relation: see the counterexample.) -/
theorem c5_spine_to_edge_nonseam (mode : par_streamlines_u_mode)
    (pts : List par_streamlines_position) (n : ℕ) (closed : Bool) (t : ℝ) (i : ℕ)
    (hi : i < n) :
    (spine_positions pts n closed t).getD (2 * i) ⟨0, 0⟩ =
      ⟨(getPos pts i).x +
          ((spine_annotations mode pts n closed t).getD (2 * i)
            annotation_default).spine_to_edge_x,
       (getPos pts i).y +
          ((spine_annotations mode pts n closed t).getD (2 * i)
            annotation_default).spine_to_edge_y⟩ ∧
    (spine_positions pts n closed t).getD (2 * i + 1) ⟨0, 0⟩ =
      ⟨(getPos pts i).x -
          ((spine_annotations mode pts n closed t).getD (2 * i)
            annotation_default).spine_to_edge_x,
       (getPos pts i).y -
          ((spine_annotations mode pts n closed t).getD (2 * i)
            annotation_default).spine_to_edge_y⟩ ∧
    ((spine_annotations mode pts n closed t).getD (2 * i + 1)
        annotation_default).spine_to_edge_x =
      -((spine_annotations mode pts n closed t).getD (2 * i)
          annotation_default).spine_to_edge_x ∧
    ((spine_annotations mode pts n closed t).getD (2 * i + 1)
        annotation_default).spine_to_edge_y =
      -((spine_annotations mode pts n closed t).getD (2 * i)
          annotation_default).spine_to_edge_y := by
  have hnv : i < nverts n closed := by
    have : n ≤ nverts n closed := by
      cases closed <;> simp [nverts]
    omega
  have ha := spine_annotations_getD mode pts n closed t i hnv
  have hp := spine_positions_getD pts n closed t i hi
  have hmin : min i (n - 1) = i := min_eq_left (by omega)
  rw [ha.1, ha.2, hp.1, hp.2, hmin]
  dsimp only
  exact ⟨rfl, rfl, rfl, rfl⟩

/-- Witness for C5 (amended) at pair 0 of the closed unit square. -/
theorem c5_witness :
    0 < 4 ∧
    ((spine_positions square_pts 4 true 2).getD (2 * 0) ⟨0, 0⟩ =
      ⟨(getPos square_pts 0).x +
          ((spine_annotations PAR_U_MODE_NORMALIZED_DISTANCE square_pts 4 true 2).getD (2 * 0)
            annotation_default).spine_to_edge_x,
       (getPos square_pts 0).y +
          ((spine_annotations PAR_U_MODE_NORMALIZED_DISTANCE square_pts 4 true 2).getD (2 * 0)
            annotation_default).spine_to_edge_y⟩ ∧
      (spine_positions square_pts 4 true 2).getD (2 * 0 + 1) ⟨0, 0⟩ =
      ⟨(getPos square_pts 0).x -
          ((spine_annotations PAR_U_MODE_NORMALIZED_DISTANCE square_pts 4 true 2).getD (2 * 0)
            annotation_default).spine_to_edge_x,
       (getPos square_pts 0).y -
          ((spine_annotations PAR_U_MODE_NORMALIZED_DISTANCE square_pts 4 true 2).getD (2 * 0)
            annotation_default).spine_to_edge_y⟩ ∧
      ((spine_annotations PAR_U_MODE_NORMALIZED_DISTANCE square_pts 4 true 2).getD (2 * 0 + 1)
          annotation_default).spine_to_edge_x =
        -((spine_annotations PAR_U_MODE_NORMALIZED_DISTANCE square_pts 4 true 2).getD (2 * 0)
            annotation_default).spine_to_edge_x ∧
      ((spine_annotations PAR_U_MODE_NORMALIZED_DISTANCE square_pts 4 true 2).getD (2 * 0 + 1)
          annotation_default).spine_to_edge_y =
        -((spine_annotations PAR_U_MODE_NORMALIZED_DISTANCE square_pts 4 true 2).getD (2 * 0)
            annotation_default).spine_to_edge_y) :=
  ⟨by norm_num,
    c5_spine_to_edge_nonseam PAR_U_MODE_NORMALIZED_DISTANCE square_pts 4 true 2 0 (by norm_num)⟩

/-- C5 counterexample: the seam pair of the closed unit square stores the
offset of the LAST joint, (1, -1), in spine_to_edge, while its position
reuses the first pair, spine vertex (0, 0) plus (1, 1); spine vertex plus
stored vector gives (1, -1), which differs from the actual position
(1, 1), refuting the claim at the duplicated seam pair. -/
theorem c5_seam_counterexample :
    (spine_positions square_pts 4 true 2).getD (2 * 4) ⟨0, 0⟩ = ⟨1, 1⟩ ∧
    ((spine_annotations PAR_U_MODE_NORMALIZED_DISTANCE square_pts 4 true 2).getD (2 * 4)
        annotation_default).spine_to_edge_x = 1 ∧
    ((spine_annotations PAR_U_MODE_NORMALIZED_DISTANCE square_pts 4 true 2).getD (2 * 4)
        annotation_default).spine_to_edge_y = -1 ∧
    (⟨(getPos square_pts 0).x + 1, (getPos square_pts 0).y + (-1)⟩ :
        par_streamlines_position) ≠ ⟨1, 1⟩ := by
  have hseam := (spine_positions_getD_seam square_pts 4 2).1
  have ha := (spine_annotations_getD PAR_U_MODE_NORMALIZED_DISTANCE square_pts 4 true 2 4
    (by simp [nverts])).1
  have hmin : min 4 (4 - 1) = 3 := rfl
  refine ⟨?_, ?_, ?_, ?_⟩
  · rw [hseam, square_offset0]
    have hgp : getPos square_pts 0 = ⟨0, 0⟩ := rfl
    rw [hgp]
    norm_num [par_streamlines_position.mk.injEq]
  · rw [ha, hmin, square_offset3]
  · rw [ha, hmin, square_offset3]
  · have hgp : getPos square_pts 0 = ⟨0, 0⟩ := rfl
    rw [hgp]
    simp [par_streamlines_position.mk.injEq]
    norm_num

/-- C3 (code evaluation at the failing input): for the closed 3-4-5
triangle spine, par_streamlines_draw_lines fills every vertex_lengths
entry with 10 = (3 + 4) + 3, re-adding the FIRST segment length (the
outer segment_length variable picked up at line 440), while the total arc
length including the closing segment is (3 + 4) + 5 = 12.  The claim that
vertex_lengths holds the closing-segment-inclusive total is therefore
violated by the code. -/
theorem c3_vertex_lengths_first_segment_slip :
    par_streamlines_draw_lines cfg1 sl3 = some mesh3 ∧
    mesh3.vertex_lengths = List.replicate 8 10 ∧
    cum_distance tri_pts 2 + segment_length (getPos tri_pts 2) (getPos tri_pts 0) = 12 ∧
    (10 : ℝ) ≠ 12 := by
  refine ⟨draw3_eq, ?_, ?_, by norm_num⟩
  · show all_vertex_lengths true [3] tri_pts = List.replicate 8 10
    simp only [all_vertex_lengths, spine_vertex_lengths, List.append_nil]
    rw [show tri_pts.take 3 = tri_pts from rfl, show 2 * nverts 3 true = 8 from rfl, tri_total]
  · rw [tri_cum2, tri_len20]
    norm_num
